import Mathlib

/-!
Verification of the chronological feature engine of the cs2-predictor
repository: a shallow embedding in Lean 4 of `src/features/elo.py`
(`EloRatingSystem`), `src/features/team_stats.py` (`TeamStatsTracker`) and
`src/features/build_features.py` (`build_feature_matrix` /
`extract_features`), together with theorems settling the specification's
claims about them.

Modelling conventions:
- Python dicts become association lists `List (κ × α)` which preserve
  insertion order (as Python dicts do); `defaultdict` reads are modelled by
  lookup-with-default.
- Python floats become `ℚ`.  The two transcendental float operations used
  (`math.pow 10 ·` inside the Elo expectation and `math.log1p`) cannot be
  represented exactly over `ℚ`, so every definition is parametric in a
  `FloatOps` record holding them; no claim depends on their values.
- Fallible operations (statistics with no data) return `Option`, mirroring
  the `None` returns in the source.
-/

set_option maxRecDepth 4000

namespace CS2

/-- Team names are plain strings (the source performs no normalization). -/
abbrev Team := String

/-! ### Association-list maps (insertion-ordered, Python-dict style) -/

/-- Lookup in an insertion-ordered map (Python `d.get(k)` / `d[k]` read). -/
def lookupA {κ α : Type} [DecidableEq κ] (k : κ) : List (κ × α) → Option α
  | [] => none
  | (k', v) :: rest => if k' = k then some v else lookupA k rest

/-- Python `d[k] = v`: overwrite in place if present, else append (dicts keep
insertion order). -/
def setA {κ α : Type} [DecidableEq κ] (k : κ) (v : α) : List (κ × α) → List (κ × α)
  | [] => [(k, v)]
  | (k', v') :: rest => if k' = k then (k, v) :: rest else (k', v') :: setA k v rest

/-- Python `d[k] = f(d.get(k, default))`, the shape every `defaultdict`
mutation in the source takes. -/
def updA {κ α : Type} [DecidableEq κ] (k : κ) (d : α) (f : α → α) :
    List (κ × α) → List (κ × α)
  | [] => [(k, f d)]
  | (k', v') :: rest => if k' = k then (k, f v') :: rest else (k', v') :: updA k d f rest

theorem lookupA_setA_self {κ α : Type} [DecidableEq κ] (k : κ) (v : α)
    (m : List (κ × α)) : lookupA k (setA k v m) = some v := by
  induction m with
  | nil => simp [setA, lookupA]
  | cons p rest ih =>
    obtain ⟨k', v'⟩ := p
    by_cases h : k' = k <;> simp [setA, lookupA, h, ih]

theorem lookupA_setA_ne {κ α : Type} [DecidableEq κ] (k j : κ) (v : α)
    (m : List (κ × α)) (hne : k ≠ j) : lookupA j (setA k v m) = lookupA j m := by
  induction m with
  | nil => simp [setA, lookupA, hne]
  | cons p rest ih =>
    obtain ⟨k', v'⟩ := p
    have hjk : ¬j = k := fun hh => hne hh.symm
    by_cases h : k' = k
    · subst h; simp [setA, lookupA, hne, hjk]
    · by_cases h' : k' = j <;> simp [setA, lookupA, h, h', ih, hjk]

theorem lookupA_updA_self {κ α : Type} [DecidableEq κ] (k : κ) (d : α) (f : α → α)
    (m : List (κ × α)) : lookupA k (updA k d f m) = some (f ((lookupA k m).getD d)) := by
  induction m with
  | nil => simp [updA, lookupA]
  | cons p rest ih =>
    obtain ⟨k', v'⟩ := p
    by_cases h : k' = k <;> simp [updA, lookupA, h, ih]

theorem lookupA_updA_ne {κ α : Type} [DecidableEq κ] (k j : κ) (d : α) (f : α → α)
    (m : List (κ × α)) (hne : k ≠ j) : lookupA j (updA k d f m) = lookupA j m := by
  induction m with
  | nil => simp [updA, lookupA, hne]
  | cons p rest ih =>
    obtain ⟨k', v'⟩ := p
    have hjk : ¬j = k := fun hh => hne hh.symm
    by_cases h : k' = k
    · subst h; simp [updA, lookupA, hne, hjk]
    · by_cases h' : k' = j <;> simp [updA, lookupA, h, h', ih, hjk]

/-- Keys of `updA` grow by at most the touched key. -/
theorem keys_updA {κ α : Type} [DecidableEq κ] (k : κ) (d : α) (f : α → α)
    (m : List (κ × α)) :
    (updA k d f m).map Prod.fst = if k ∈ m.map Prod.fst then m.map Prod.fst
      else m.map Prod.fst ++ [k] := by
  induction m with
  | nil => simp [updA]
  | cons p rest ih =>
    obtain ⟨k', v'⟩ := p
    by_cases h : k' = k
    · subst h; simp [updA]
    · have : ¬k = k' := fun hh => h hh.symm
      by_cases hmem : k ∈ rest.map Prod.fst <;>
        simp [updA, h, ih, hmem, this]

theorem keys_setA {κ α : Type} [DecidableEq κ] (k : κ) (v : α)
    (m : List (κ × α)) :
    (setA k v m).map Prod.fst = if k ∈ m.map Prod.fst then m.map Prod.fst
      else m.map Prod.fst ++ [k] := by
  induction m with
  | nil => simp [setA]
  | cons p rest ih =>
    obtain ⟨k', v'⟩ := p
    by_cases h : k' = k
    · subst h; simp [setA]
    · have : ¬k = k' := fun hh => h hh.symm
      by_cases hmem : k ∈ rest.map Prod.fst <;>
        simp [setA, h, ih, hmem, this]

theorem nodup_keys_updA {κ α : Type} [DecidableEq κ] (k : κ) (d : α) (f : α → α)
    (m : List (κ × α)) (h : (m.map Prod.fst).Nodup) :
    ((updA k d f m).map Prod.fst).Nodup := by
  rw [keys_updA]
  by_cases hmem : k ∈ m.map Prod.fst
  · simpa [hmem]
  · simp only [hmem, if_false]
    refine List.Nodup.append h (List.nodup_singleton k) ?_
    intro a ha hk
    rw [List.mem_singleton] at hk
    exact hmem (hk ▸ ha)

theorem nodup_keys_setA {κ α : Type} [DecidableEq κ] (k : κ) (v : α)
    (m : List (κ × α)) (h : (m.map Prod.fst).Nodup) :
    ((setA k v m).map Prod.fst).Nodup := by
  rw [keys_setA]
  by_cases hmem : k ∈ m.map Prod.fst
  · simpa [hmem]
  · simp only [hmem, if_false]
    refine List.Nodup.append h (List.nodup_singleton k) ?_
    intro a ha hk
    rw [List.mem_singleton] at hk
    exact hmem (hk ▸ ha)

theorem lookupA_eq_none_of_not_mem {κ α : Type} [DecidableEq κ] (k : κ)
    (m : List (κ × α)) (h : k ∉ m.map Prod.fst) : lookupA k m = none := by
  induction m with
  | nil => rfl
  | cons p rest ih =>
    obtain ⟨k', v'⟩ := p
    simp only [List.map_cons, List.mem_cons] at h
    push_neg at h
    have hk : ¬k' = k := fun hh => h.1 hh.symm
    simp [lookupA, hk, ih h.2]

/-! ### Abstracted transcendental float operations -/

/-- The two transcendental float functions the feature engine uses:
`exp10 x` stands for `math.pow(10, x)` (inside the Elo expectation) and
`log1p` for `math.log1p` (prize-pool feature).  They are parameters of the
embedding: exact float transcendentals have no rational value, and no claim
in scope depends on the numbers they produce. -/
structure FloatOps where
  exp10 : ℚ → ℚ
  log1p : ℚ → ℚ

/-- A concrete instantiation used by witnesses and counterexamples. -/
def F0 : FloatOps := ⟨fun _ => 1, fun _ => 0⟩

/-! ### Python string ordering (`sorted([team1, team2])`) -/

/-- Code-point lexicographic order on char lists, the order Python uses to
compare strings in `sorted`. -/
def charsLt : List Char → List Char → Bool
  | [], [] => false
  | [], _ :: _ => true
  | _ :: _, [] => false
  | a :: as, b :: bs =>
    if a.toNat < b.toNat then true
    else if b.toNat < a.toNat then false
    else charsLt as bs

/-- Python `tuple(sorted([a, b]))`, the canonical head-to-head key.  A list
(rather than a pair) because deserialization can produce keys of any arity
(see `TeamStatsTracker.load`). -/
def sortPair (a b : Team) : List Team :=
  if charsLt b.toList a.toList then [b, a] else [a, b]

theorem charsLt_irrefl (l : List Char) : charsLt l l = false := by
  induction l with
  | nil => rfl
  | cons c cs ih => simp [charsLt, ih]

theorem charsLt_asymm (l m : List Char) (h : charsLt l m = true) :
    charsLt m l = false := by
  induction l generalizing m with
  | nil =>
    cases m with
    | nil => simp [charsLt] at h
    | cons b bs => simp [charsLt]
  | cons a as ih =>
    cases m with
    | nil => simp [charsLt] at h
    | cons b bs =>
      simp only [charsLt] at h ⊢
      rcases Nat.lt_trichotomy a.toNat b.toNat with hab | hab | hab
      · simp [hab, Nat.lt_asymm hab, Nat.not_lt.mpr (Nat.le_of_lt hab)]
      · simp only [hab, lt_irrefl, if_false] at h ⊢
        exact ih bs h
      · rw [if_neg (Nat.lt_asymm hab), if_pos hab] at h
        exact absurd h (by simp)

theorem charsLt_total (l m : List Char) (h1 : charsLt l m = false)
    (h2 : charsLt m l = false) : l = m := by
  induction l generalizing m with
  | nil =>
    cases m with
    | nil => rfl
    | cons b bs => simp [charsLt] at h1
  | cons a as ih =>
    cases m with
    | nil => simp [charsLt] at h2
    | cons b bs =>
      simp only [charsLt] at h1 h2
      rcases Nat.lt_trichotomy a.toNat b.toNat with hab | hab | hab
      · simp [hab] at h1
      · have ha : a = b :=
          Char.le_antisymm (Nat.le_of_eq hab) (Nat.le_of_eq hab.symm)
        subst ha
        simp only [lt_irrefl, if_false] at h1 h2
        rw [ih bs h1 h2]
      · simp [hab, Nat.lt_asymm hab] at h2

/-- The canonical pair key is symmetric in its two arguments. -/
theorem sortPair_comm (a b : Team) : sortPair a b = sortPair b a := by
  unfold sortPair
  by_cases hab : charsLt a.toList b.toList = true
  · rw [hab, charsLt_asymm _ _ hab]; simp
  · by_cases hba : charsLt b.toList a.toList = true
    · rw [hba, charsLt_asymm _ _ hba]; simp
    · simp only [Bool.not_eq_true] at hab hba
      rw [hab, hba]
      have : a = b := by
        have h := charsLt_total _ _ hab hba
        cases a; cases b; exact congrArg String.mk h
      rw [this]

/-! ### Day-granularity date arithmetic (`get_days_since_last_match`) -/

/-- Leap-year rule of the proleptic Gregorian calendar (Python `datetime`). -/
def isLeapYear (y : ℤ) : Bool := (y % 4 == 0 && y % 100 != 0) || y % 400 == 0

/-- Days in a month (`datetime` validity checking). -/
def daysInMonth (y : ℤ) (m : Nat) : Nat :=
  if m = 2 then (if isLeapYear y then 29 else 28)
  else if m = 4 ∨ m = 6 ∨ m = 9 ∨ m = 11 then 30
  else 31

/-- Day count of a civil date from a fixed epoch (the standard
days-from-civil algorithm), so that subtracting two values gives the
calendar-day difference `datetime` subtraction reports. -/
def daysFromCivil (y : ℤ) (m d : Nat) : ℤ :=
  let y' : ℤ := if m ≤ 2 then y - 1 else y
  let era : ℤ := (if 0 ≤ y' then y' else y' - 399) / 400
  let yoe : ℤ := y' - era * 400
  let mp : ℤ := if 2 < m then (m : ℤ) - 3 else (m : ℤ) + 9
  let doy : ℤ := (153 * mp + 2) / 5 + (d : ℤ) - 1
  let doe : ℤ := yoe * 365 + yoe / 4 - yoe / 100 + doy
  era * 146097 + doe - 719468

/-- Numeric value of a decimal digit character, `none` otherwise. -/
def digitVal (c : Char) : Option Nat :=
  if c.isDigit then some (c.toNat - 48) else none

/-- Parse a fixed-width block of decimal digits. -/
def parseDigits : List Char → Option Nat
  | [] => none
  | cs => cs.foldl (fun acc c => match acc, digitVal c with
      | some n, some d => some (n * 10 + d)
      | _, _ => none) (some 0)

/-- Model of `datetime.fromisoformat(str(x).replace(" ", "T").split("T")[0])`
followed by `.days` subtraction support: the date part before any `T` or
space must be a valid `YYYY-MM-DD` date; the result is its civil day
number.  Invalid input gives `none` (the source catches the `ValueError`). -/
def parseIsoDay (s : String) : Option ℤ :=
  match s.toList.takeWhile (fun c => ¬(c = 'T' ∨ c = ' ')) with
  | [y1, y2, y3, y4, s1, m1, m2, s2, d1, d2] =>
    if s1 = '-' ∧ s2 = '-' then
      match parseDigits [y1, y2, y3, y4], parseDigits [m1, m2], parseDigits [d1, d2] with
      | some y, some m, some d =>
        if 1 ≤ m ∧ m ≤ 12 ∧ 1 ≤ d ∧ d ≤ daysInMonth (y : ℤ) m ∧ 1 ≤ y then
          some (daysFromCivil (y : ℤ) m d)
        else none
      | _, _, _ => none
    else none
  | _ => none

/-! ### `EloRatingSystem` (src/features/elo.py) -/

/-- State of `EloRatingSystem`: the two tunable constants plus the
`ratings` and `match_counts` default-dicts. -/
structure EloRatingSystem where
  k_factor : ℚ
  default_rating : ℚ
  ratings : List (Team × ℚ)
  match_counts : List (Team × Nat)
deriving DecidableEq

/-- `EloRatingSystem()` with the default constructor arguments. -/
def emptyElo : EloRatingSystem :=
  { k_factor := 32, default_rating := 1500, ratings := [], match_counts := [] }

namespace EloRatingSystem

/-- `expected_score`: `1 / (1 + 10 ** ((rb - ra) / 400))`. -/
def expected_score (F : FloatOps) (ra rb : ℚ) : ℚ :=
  1 / (1 + F.exp10 ((rb - ra) / 400))

/-- `get_rating`: defaultdict read, unseen teams get `default_rating`. -/
def get_rating (es : EloRatingSystem) (team : Team) : ℚ :=
  (lookupA team es.ratings).getD es.default_rating

/-- `get_match_count`: defaultdict read, unseen teams get `0`. -/
def get_match_count (es : EloRatingSystem) (team : Team) : Nat :=
  (lookupA team es.match_counts).getD 0

/-- `_get_k`: adaptive K-factor, `48.0` below 30 matches, else `k_factor`. -/
def getK (es : EloRatingSystem) (team : Team) : ℚ :=
  if es.get_match_count team < 30 then 48 else es.k_factor

/-- `update`: read both ratings, apply `new = old + k * (actual - expected)`
per side with the adaptive K-factor, then increment both match counts. -/
def update (F : FloatOps) (es : EloRatingSystem) (team1 team2 : Team)
    (team1_win : Bool) : EloRatingSystem :=
  let r1 := es.get_rating team1
  let r2 := es.get_rating team2
  let e1 := expected_score F r1 r2
  let e2 := 1 - e1
  let s1 : ℚ := if team1_win then 1 else 0
  let s2 : ℚ := 1 - s1
  let k1 := es.getK team1
  let k2 := es.getK team2
  { es with
    ratings := setA team2 (r2 + k2 * (s2 - e2)) (setA team1 (r1 + k1 * (s1 - e1)) es.ratings),
    match_counts := updA team2 0 (· + 1) (updA team1 0 (· + 1) (updA team2 0 id (updA team1 0 id es.match_counts))) }

end EloRatingSystem

/-! ### `TeamStatsTracker` (src/features/team_stats.py) -/

/-- State of `TeamStatsTracker`.  `h2h` keys are lists because the
deserializer can reconstruct keys of any arity (`key_str.split("|")`);
`record_match` itself only ever creates sorted two-element keys. -/
structure TeamStatsTracker where
  history : List (Team × List (String × Bool))
  tier_history : List (Team × List (String × List (String × Bool)))
  h2h : List (List Team × List (Team × Nat))
  last_match_date : List (Team × String)
deriving DecidableEq

/-- `TeamStatsTracker()`: all four maps empty. -/
def emptyStats : TeamStatsTracker := ⟨[], [], [], []⟩

/-- Python `hist[-n:]` for a natural `n`: the whole list when `n = 0`
(`-0` is `0`), otherwise the last `n` elements (fewer if shorter). -/
def pyTail {α : Type} (n : Nat) (l : List α) : List α :=
  if n = 0 then l else l.drop (l.length - n)

namespace TeamStatsTracker

/-- `record_match`: append to both teams' histories (and tier histories if a
tier is given), bump the canonical pair's winner counter, refresh both
teams' last-match dates. -/
def record_match (t : TeamStatsTracker) (team1 team2 : Team) (team1_win : Bool)
    (date_str : String) (tier : Option String) : TeamStatsTracker :=
  let t1_won := team1_win
  let t2_won := !t1_won
  let h := updA team2 [] (· ++ [(date_str, t2_won)])
    (updA team1 [] (· ++ [(date_str, t1_won)]) t.history)
  let th := match tier with
    | none => t.tier_history
    | some tr =>
      updA team2 [] (updA tr [] (· ++ [(date_str, t2_won)]))
        (updA team1 [] (updA tr [] (· ++ [(date_str, t1_won)])) t.tier_history)
  let h2h_key := sortPair team1 team2
  let winner := if t1_won then team1 else team2
  let hh := updA h2h_key [] (updA winner 0 (· + 1)) t.h2h
  let lm := setA team2 date_str (setA team1 date_str t.last_match_date)
  ⟨h, th, hh, lm⟩

/-- `get_win_rate`: `None` when the team has no history, else the win
fraction over `hist[-last_n:]` (whole history when `last_n is None`). -/
def get_win_rate (t : TeamStatsTracker) (team : Team) (last_n : Option Nat) :
    Option ℚ :=
  match lookupA team t.history with
  | none => none
  | some [] => none
  | some hist =>
    let w := match last_n with
      | none => hist
      | some n => pyTail n hist
    some ((w.countP (fun p => p.2) : ℚ) / (w.length : ℚ))

/-- `get_recent_form`: alias of `get_win_rate` with an explicit window. -/
def get_recent_form (t : TeamStatsTracker) (team : Team) (last_n : Nat) :
    Option ℚ :=
  t.get_win_rate team (some last_n)

/-- `get_win_streak`: length of the trailing run of identical outcomes,
negated for a loss run, `0` with no history. -/
def get_win_streak (t : TeamStatsTracker) (team : Team) : ℤ :=
  match lookupA team t.history with
  | none => 0
  | some [] => 0
  | some hist =>
    match hist.getLast? with
    | none => 0
    | some (_, last_result) =>
      let streak := (hist.reverse.takeWhile (fun p => p.2 = last_result)).length
      if last_result then (streak : ℤ) else -(streak : ℤ)

/-- Total of a head-to-head record (`sum(record.values())`). -/
def sumVals (rec : List (Team × Nat)) : Nat := (rec.map Prod.snd).sum

/-- `get_h2h_win_rate`: wins of `team` over the canonical pair's total;
`None` when the pair has no record (or an empty/zero one). -/
def get_h2h_win_rate (t : TeamStatsTracker) (team opponent : Team) : Option ℚ :=
  match lookupA (sortPair team opponent) t.h2h with
  | none => none
  | some [] => none
  | some rec =>
    let total := sumVals rec
    if total = 0 then none
    else some (((lookupA team rec).getD 0 : ℚ) / (total : ℚ))

/-- `get_tier_win_rate`: win fraction of the team's history at one tier. -/
def get_tier_win_rate (t : TeamStatsTracker) (team : Team) (tier : String) :
    Option ℚ :=
  match lookupA team t.tier_history with
  | none => none
  | some tiers =>
    match lookupA tier tiers with
    | none => none
    | some [] => none
    | some th => some ((th.countP (fun p => p.2) : ℚ) / (th.length : ℚ))

/-- `get_days_since_last_match`: day difference between `current_date` and
the stored last-match date, both truncated to day granularity; `None` with
no history or unparseable dates. -/
def get_days_since_last_match (t : TeamStatsTracker) (team : Team)
    (current_date : String) : Option ℤ :=
  match lookupA team t.last_match_date with
  | none => none
  | some last =>
    if last = "" then none
    else
      match parseIsoDay last, parseIsoDay current_date with
      | some a, some b => some (b - a)
      | _, _ => none

/-- `get_total_matches`: `len(self.history.get(team, []))`. -/
def get_total_matches (t : TeamStatsTracker) (team : Team) : Nat :=
  ((lookupA team t.history).getD []).length

end TeamStatsTracker

/-! ### Persistence (save/load of both models) -/

/-- Serialized form of `EloRatingSystem.save`: the two maps plus the two
tunable constants, entry order preserved (JSON objects keep it). -/
structure SavedElo where
  ratings : List (Team × ℚ)
  match_counts : List (Team × Nat)
  k_factor : ℚ
  default_rating : ℚ
deriving DecidableEq

/-- `EloRatingSystem.save`. -/
def saveElo (es : EloRatingSystem) : SavedElo :=
  ⟨es.ratings, es.match_counts, es.k_factor, es.default_rating⟩

/-- Rebuilding a dict by assigning each saved entry in order into a fresh
empty map, as every `load` loop in the source does. -/
def loadFold {κ α : Type} [DecidableEq κ] (l : List (κ × α)) : List (κ × α) :=
  l.foldl (fun acc p => setA p.1 p.2 acc) []

/-- `EloRatingSystem.load` (the saved file always carries both constants, so
the `data.get(..., default)` fallbacks resolve to the stored values). -/
def loadElo (d : SavedElo) : EloRatingSystem :=
  { k_factor := d.k_factor, default_rating := d.default_rating,
    ratings := loadFold d.ratings, match_counts := loadFold d.match_counts }

/-- `"|".join`, on strings as char lists. -/
def joinBar : List (List Char) → List Char
  | [] => []
  | [x] => x
  | x :: y :: rest => x ++ '|' :: joinBar (y :: rest)

/-- Worker for Python `str.split("|")`. -/
def splitBarAux : List Char → List Char → List (List Char)
  | [], acc => [acc.reverse]
  | c :: cs, acc =>
    if c = '|' then acc.reverse :: splitBarAux cs []
    else splitBarAux cs (c :: acc)

/-- Python `key_str.split("|")`. -/
def splitBar (l : List Char) : List (List Char) := splitBarAux l []

/-- Serialized form of `TeamStatsTracker.save`: the four maps with each
head-to-head key flattened to a `"|"`-joined string. -/
structure SavedStats where
  history : List (Team × List (String × Bool))
  tier_history : List (Team × List (String × List (String × Bool)))
  h2h : List (List Char × List (Team × Nat))
  last_match_date : List (Team × String)
deriving DecidableEq

/-- `TeamStatsTracker.save`. -/
def saveStats (t : TeamStatsTracker) : SavedStats :=
  ⟨t.history, t.tier_history,
    t.h2h.map (fun p => (joinBar (p.1.map String.toList), p.2)),
    t.last_match_date⟩

/-- The nested rebuild loop for `tier_history` in `TeamStatsTracker.load`. -/
def loadTierFold (l : List (Team × List (String × List (String × Bool)))) :
    List (Team × List (String × List (String × Bool))) :=
  l.foldl (fun acc p => p.2.foldl (fun acc2 q => updA p.1 [] (setA q.1 q.2) acc2) acc) []

/-- `TeamStatsTracker.load`: histories and tier histories entry by entry,
head-to-head keys reconstructed via `split("|")`, last-match dates taken
wholesale. -/
def loadStats (d : SavedStats) : TeamStatsTracker :=
  { history := loadFold d.history,
    tier_history := loadTierFold d.tier_history,
    h2h := loadFold (d.h2h.map (fun p => ((splitBar p.1).map String.mk, p.2))),
    last_match_date := d.last_match_date }

/-! ### The chronological orchestrator (src/features/build_features.py) -/

/-- One cleaned input match as the loop in `build_feature_matrix` sees it:
names, outcome, date string and the tournament context looked up from
`tournament_info` (absent / NaN context values are `none`). -/
structure MatchRow where
  team1 : Team
  team2 : Team
  team1_win : Bool
  date : String
  tier : Option String
  prizepool : Option ℚ
  ttype : Option String
  match_id : Option String
deriving DecidableEq

/-- Python `x or default` on a nullable float: the default replaces both
`None` and falsy `0.0`. -/
def pyOr (x : Option ℚ) (default : ℚ) : ℚ :=
  match x with
  | none => default
  | some v => if v = 0 then default else v

/-- Python `int(s)` on a string: optional sign then decimal digits,
`ValueError` (here `none`) otherwise. -/
def pyIntOfString (s : String) : Option ℤ :=
  match s.toList with
  | '-' :: rest => (parseDigits rest).map (fun n => -(n : ℤ))
  | '+' :: rest => (parseDigits rest).map (fun n => (n : ℤ))
  | l => (parseDigits l).map (fun n => (n : ℤ))

/-- The feature dict built by `extract_features`, one field per key. -/
structure FeatureRow where
  team1_elo : ℚ
  team2_elo : ℚ
  elo_diff : ℚ
  team1_wr_all : ℚ
  team2_wr_all : ℚ
  wr_diff_all : ℚ
  team1_wr_20 : ℚ
  team2_wr_20 : ℚ
  team1_wr_50 : ℚ
  team2_wr_50 : ℚ
  team1_form : ℚ
  team2_form : ℚ
  form_diff : ℚ
  team1_streak : ℤ
  team2_streak : ℤ
  streak_diff : ℤ
  h2h_wr : Option ℚ
  team1_tier_wr : Option ℚ
  team2_tier_wr : Option ℚ
  team1_days_since_last : Option ℤ
  team2_days_since_last : Option ℤ
  tier : Option ℤ
  log_prizepool : ℚ
  is_online : Nat
  is_offline : Nat
  is_hybrid : Nat
deriving DecidableEq

/-- `extract_features`: all pre-match features for one match, read from the
current model state.  Win rates and form pass through `or 0.5`; streaks,
head-to-head, tier win rates and activity gaps are taken verbatim. -/
def extract_features (F : FloatOps) (elo : EloRatingSystem)
    (stats : TeamStatsTracker) (team1 team2 : Team) (date_str : String)
    (tier : Option String) (prizepool : Option ℚ) (t_type : Option String) :
    FeatureRow :=
  let team1_elo := elo.get_rating team1
  let team2_elo := elo.get_rating team2
  let team1_wr_all := pyOr (stats.get_win_rate team1 none) (1/2)
  let team2_wr_all := pyOr (stats.get_win_rate team2 none) (1/2)
  let team1_form := pyOr (stats.get_recent_form team1 10) (1/2)
  let team2_form := pyOr (stats.get_recent_form team2 10) (1/2)
  let team1_streak := stats.get_win_streak team1
  let team2_streak := stats.get_win_streak team2
  { team1_elo := team1_elo
    team2_elo := team2_elo
    elo_diff := team1_elo - team2_elo
    team1_wr_all := team1_wr_all
    team2_wr_all := team2_wr_all
    wr_diff_all := team1_wr_all - team2_wr_all
    team1_wr_20 := pyOr (stats.get_win_rate team1 (some 20)) (1/2)
    team2_wr_20 := pyOr (stats.get_win_rate team2 (some 20)) (1/2)
    team1_wr_50 := pyOr (stats.get_win_rate team1 (some 50)) (1/2)
    team2_wr_50 := pyOr (stats.get_win_rate team2 (some 50)) (1/2)
    team1_form := team1_form
    team2_form := team2_form
    form_diff := team1_form - team2_form
    team1_streak := team1_streak
    team2_streak := team2_streak
    streak_diff := team1_streak - team2_streak
    h2h_wr := stats.get_h2h_win_rate team1 team2
    team1_tier_wr := match tier with
      | some tr => stats.get_tier_win_rate team1 tr
      | none => none
    team2_tier_wr := match tier with
      | some tr => stats.get_tier_win_rate team2 tr
      | none => none
    team1_days_since_last := stats.get_days_since_last_match team1 date_str
    team2_days_since_last := stats.get_days_since_last_match team2 date_str
    tier := match tier with
      | some tr => pyIntOfString tr
      | none => none
    log_prizepool := F.log1p (prizepool.getD 0)
    is_online := if t_type = some "Online" then 1 else 0
    is_offline := if t_type = some "Offline" then 1 else 0
    is_hybrid := if t_type = some "Online/Offline" then 1 else 0 }

/-- A materialized training row: the feature dict plus the label columns
appended in the loop (`team1_win`, `date`, `match_id`). -/
structure TrainRow where
  feat : FeatureRow
  team1_win : Bool
  date : String
  match_id : Option String
deriving DecidableEq

/-- `MIN_MATCHES`: minimum prior matches before a team enters training data. -/
def MIN_MATCHES : Nat := 5

/-- The gate check of the loop: both pre-match totals at least `MIN_MATCHES`. -/
def passesGate (stats : TeamStatsTracker) (m : MatchRow) : Bool :=
  MIN_MATCHES ≤ stats.get_total_matches m.team1 &&
    MIN_MATCHES ≤ stats.get_total_matches m.team2

/-- The row appended for a gated match: features from the current (pre-match)
state plus the label columns. -/
def extractRow (F : FloatOps) (elo : EloRatingSystem) (stats : TeamStatsTracker)
    (m : MatchRow) : TrainRow :=
  ⟨extract_features F elo stats m.team1 m.team2 m.date m.tier m.prizepool m.ttype,
    m.team1_win, m.date, m.match_id⟩

/-- Loop state of `build_feature_matrix`: both models, the accumulated
feature rows, and the skipped-match counter. -/
structure BuildState where
  elo : EloRatingSystem
  stats : TeamStatsTracker
  rows : List TrainRow
  skipped : Nat
deriving DecidableEq

/-- Initial loop state: fresh models, no rows. -/
def startState : BuildState := ⟨emptyElo, emptyStats, [], 0⟩

/-- One iteration of the loop: gate check against pre-match totals, feature
extraction (only when gated) from pre-match state, then — for every match —
`elo.update` and `stats.record_match` with the true outcome. -/
def buildStep (F : FloatOps) (st : BuildState) (m : MatchRow) : BuildState :=
  let st' :=
    if passesGate st.stats m then
      { st with rows := st.rows ++ [extractRow F st.elo st.stats m] }
    else
      { st with skipped := st.skipped + 1 }
  { st' with
    elo := st'.elo.update F m.team1 m.team2 m.team1_win,
    stats := st'.stats.record_match m.team1 m.team2 m.team1_win m.date m.tier }

/-- The full chronological pass over the (already sorted) match stream. -/
def buildLoop (F : FloatOps) (init : BuildState) (ms : List MatchRow) : BuildState :=
  ms.foldl (buildStep F) init

/-- The materialized row after the final fill pass over the feature table:
every still-undefined value replaced by its documented neutral default
(`h2h_wr`/tier win rates → 0.5, activity gaps → 30, tier → 4; the feature
dict holds no other undefined values, so the residual `fillna(0)` over
numeric columns changes nothing). -/
structure FilledRow where
  team1_elo : ℚ
  team2_elo : ℚ
  elo_diff : ℚ
  team1_wr_all : ℚ
  team2_wr_all : ℚ
  wr_diff_all : ℚ
  team1_wr_20 : ℚ
  team2_wr_20 : ℚ
  team1_wr_50 : ℚ
  team2_wr_50 : ℚ
  team1_form : ℚ
  team2_form : ℚ
  form_diff : ℚ
  team1_streak : ℤ
  team2_streak : ℤ
  streak_diff : ℤ
  h2h_wr : ℚ
  team1_tier_wr : ℚ
  team2_tier_wr : ℚ
  team1_days_since_last : ℤ
  team2_days_since_last : ℤ
  tier : ℤ
  log_prizepool : ℚ
  is_online : Nat
  is_offline : Nat
  is_hybrid : Nat
deriving DecidableEq

/-- The fill pass (`fill_defaults` + residual `fillna(0)`) applied to one
feature row. -/
def fillRow (r : FeatureRow) : FilledRow :=
  { team1_elo := r.team1_elo
    team2_elo := r.team2_elo
    elo_diff := r.elo_diff
    team1_wr_all := r.team1_wr_all
    team2_wr_all := r.team2_wr_all
    wr_diff_all := r.wr_diff_all
    team1_wr_20 := r.team1_wr_20
    team2_wr_20 := r.team2_wr_20
    team1_wr_50 := r.team1_wr_50
    team2_wr_50 := r.team2_wr_50
    team1_form := r.team1_form
    team2_form := r.team2_form
    form_diff := r.form_diff
    team1_streak := r.team1_streak
    team2_streak := r.team2_streak
    streak_diff := r.streak_diff
    h2h_wr := (r.h2h_wr).getD (1/2)
    team1_tier_wr := (r.team1_tier_wr).getD (1/2)
    team2_tier_wr := (r.team2_tier_wr).getD (1/2)
    team1_days_since_last := (r.team1_days_since_last).getD 30
    team2_days_since_last := (r.team2_days_since_last).getD 30
    tier := (r.tier).getD 4
    log_prizepool := r.log_prizepool
    is_online := r.is_online
    is_offline := r.is_offline
    is_hybrid := r.is_hybrid }

/-- Replay of a match list through `record_match` from an arbitrary state. -/
def statsFold (t : TeamStatsTracker) (ms : List MatchRow) : TeamStatsTracker :=
  ms.foldl (fun t m => t.record_match m.team1 m.team2 m.team1_win m.date m.tier) t

/-- Replay of a match list through `record_match` alone (the tracker's
reachable states). -/
def applyStats (ms : List MatchRow) : TeamStatsTracker :=
  statsFold emptyStats ms

/-- Replay of a match list through `update` from an arbitrary state. -/
def eloFold (F : FloatOps) (e : EloRatingSystem) (ms : List MatchRow) :
    EloRatingSystem :=
  ms.foldl (fun e m => e.update F m.team1 m.team2 m.team1_win) e

/-- Replay of a match list through `update` alone (the rating model's
reachable states). -/
def applyElo (F : FloatOps) (ms : List MatchRow) : EloRatingSystem :=
  eloFold F emptyElo ms

/-! ### Derived quantities used in the claims -/

/-- A team's stored match history. -/
def historyOf (t : TeamStatsTracker) (team : Team) : List (String × Bool) :=
  (lookupA team t.history).getD []

/-- The winning team of a match record. -/
def winnerOf (m : MatchRow) : Team := if m.team1_win then m.team1 else m.team2

/-- Total count stored in the canonical head-to-head record of a pair
(`0` when the pair has no record). -/
def h2hTotal (t : TeamStatsTracker) (a b : Team) : Nat :=
  match lookupA (sortPair a b) t.h2h with
  | none => 0
  | some rec => TeamStatsTracker.sumVals rec

/-- Win count credited to `w` in the canonical head-to-head record of a
pair. -/
def h2hWins (t : TeamStatsTracker) (a b w : Team) : Nat :=
  match lookupA (sortPair a b) t.h2h with
  | none => 0
  | some rec => (lookupA w rec).getD 0

/-- How many matches of a stream are between the (unordered) pair `{a, b}`. -/
def countPair (a b : Team) (ms : List MatchRow) : Nat :=
  ms.countP (fun m => decide (sortPair m.team1 m.team2 = sortPair a b))

/-- How many matches of a stream are between the pair `{a, b}` and won by
`w`. -/
def countPairWin (a b w : Team) (ms : List MatchRow) : Nat :=
  ms.countP (fun m =>
    decide (sortPair m.team1 m.team2 = sortPair a b) && decide (winnerOf m = w))

/-! ### Step lemmas about the orchestrator loop -/

theorem buildStep_elo (F : FloatOps) (st : BuildState) (m : MatchRow) :
    (buildStep F st m).elo = st.elo.update F m.team1 m.team2 m.team1_win := by
  unfold buildStep
  by_cases h : passesGate st.stats m <;> simp [h]

theorem buildStep_stats (F : FloatOps) (st : BuildState) (m : MatchRow) :
    (buildStep F st m).stats =
      st.stats.record_match m.team1 m.team2 m.team1_win m.date m.tier := by
  unfold buildStep
  by_cases h : passesGate st.stats m <;> simp [h]

theorem buildStep_rows (F : FloatOps) (st : BuildState) (m : MatchRow) :
    (buildStep F st m).rows =
      if passesGate st.stats m then st.rows ++ [extractRow F st.elo st.stats m]
      else st.rows := by
  unfold buildStep
  by_cases h : passesGate st.stats m <;> simp [h]

theorem buildStep_skipped (F : FloatOps) (st : BuildState) (m : MatchRow) :
    (buildStep F st m).skipped =
      if passesGate st.stats m then st.skipped else st.skipped + 1 := by
  unfold buildStep
  by_cases h : passesGate st.stats m <;> simp [h]

/-- Processing the first `i + 1` matches is processing the first `i` and
then stepping once on match `i`. -/
theorem buildLoop_take_succ (F : FloatOps) (init : BuildState)
    (ms : List MatchRow) (i : Nat) (h : i < ms.length) :
    buildLoop F init (ms.take (i + 1)) =
      buildStep F (buildLoop F init (ms.take i)) (ms.get ⟨i, h⟩) := by
  unfold buildLoop
  rw [List.take_succ, List.foldl_append]
  rw [List.getElem?_eq_getElem h]
  rfl

/-! ### Concrete inputs used by witnesses and counterexamples -/

/-- A synthetic 3-match sequence between two brand-new teams. -/
def msSyn3 : List MatchRow :=
  [⟨"X", "Y", true, "2020-01-01", none, none, none, none⟩,
   ⟨"X", "Y", false, "2020-01-02", none, none, none, none⟩,
   ⟨"Y", "X", true, "2020-01-03", none, none, none, none⟩]

/-- Five warm-up matches all lost by team `A` against team `B`. -/
def msWarm5 : List MatchRow :=
  [⟨"A", "B", false, "2020-01-01", none, none, none, none⟩,
   ⟨"A", "B", false, "2020-01-01", none, none, none, none⟩,
   ⟨"A", "B", false, "2020-01-01", none, none, none, none⟩,
   ⟨"A", "B", false, "2020-01-01", none, none, none, none⟩,
   ⟨"A", "B", false, "2020-01-01", none, none, none, none⟩]

/-- The warm-up matches followed by a sixth `A` vs `B` match (the first one
that passes the minimum-exposure gate). -/
def msWarm6 : List MatchRow :=
  msWarm5 ++ [⟨"A", "B", false, "2020-01-06", none, none, none, none⟩]

/-! ### Claim theorems -/

/-- C2: for every position `i` of the stream, processing matches `0..i`
equals processing `0..i-1` and then stepping once on match `i`; that step
updates the rating model and the tracker exactly once with match `i`'s
outcome, on top of the very state the features were extracted from, and the
row appended for match `i` (when the gate passes) is extracted from the
state built from matches strictly before `i` alone — so a feature vector can
never observe match `i` or anything later. -/
theorem extraction_uses_only_prior_matches (F : FloatOps) (ms : List MatchRow)
    (i : Nat) (h : i < ms.length) :
    buildLoop F startState (ms.take (i + 1)) =
      buildStep F (buildLoop F startState (ms.take i)) (ms.get ⟨i, h⟩) ∧
    (buildStep F (buildLoop F startState (ms.take i)) (ms.get ⟨i, h⟩)).elo =
      (buildLoop F startState (ms.take i)).elo.update F (ms.get ⟨i, h⟩).team1
        (ms.get ⟨i, h⟩).team2 (ms.get ⟨i, h⟩).team1_win ∧
    (buildStep F (buildLoop F startState (ms.take i)) (ms.get ⟨i, h⟩)).stats =
      (buildLoop F startState (ms.take i)).stats.record_match (ms.get ⟨i, h⟩).team1
        (ms.get ⟨i, h⟩).team2 (ms.get ⟨i, h⟩).team1_win (ms.get ⟨i, h⟩).date
        (ms.get ⟨i, h⟩).tier ∧
    (buildStep F (buildLoop F startState (ms.take i)) (ms.get ⟨i, h⟩)).rows =
      (if passesGate (buildLoop F startState (ms.take i)).stats (ms.get ⟨i, h⟩) then
        (buildLoop F startState (ms.take i)).rows ++
          [extractRow F (buildLoop F startState (ms.take i)).elo
            (buildLoop F startState (ms.take i)).stats (ms.get ⟨i, h⟩)]
      else (buildLoop F startState (ms.take i)).rows) :=
  ⟨buildLoop_take_succ F startState ms i h,
   buildStep_elo F _ _, buildStep_stats F _ _, buildStep_rows F _ _⟩

/-- Witness for C2 at the synthetic 3-match sequence, position 1 (the second
match): its prefix state is exactly the fold of match 1 alone. -/
theorem extraction_uses_only_prior_matches_witness :
    1 < msSyn3.length ∧
    buildLoop F0 startState (msSyn3.take 2) =
      buildStep F0 (buildLoop F0 startState (msSyn3.take 1)) (msSyn3.get ⟨1, by decide⟩) :=
  ⟨by decide, (extraction_uses_only_prior_matches F0 msSyn3 1 (by decide)).1⟩

/-- C3: one loop iteration appends a training row exactly when both teams'
pre-match totals reach `MIN_MATCHES` (= 5); a failing match appends nothing
and bumps the skip counter instead; and in both cases the rating model and
the tracker absorb the match's outcome. -/
theorem gate_min_matches (F : FloatOps) (st : BuildState) (m : MatchRow) :
    ((buildStep F st m).rows.length = st.rows.length + 1 ↔
      MIN_MATCHES ≤ st.stats.get_total_matches m.team1 ∧
        MIN_MATCHES ≤ st.stats.get_total_matches m.team2) ∧
    ((buildStep F st m).rows = st.rows ∧ (buildStep F st m).skipped = st.skipped + 1 ↔
      ¬(MIN_MATCHES ≤ st.stats.get_total_matches m.team1 ∧
        MIN_MATCHES ≤ st.stats.get_total_matches m.team2)) ∧
    (buildStep F st m).elo = st.elo.update F m.team1 m.team2 m.team1_win ∧
    (buildStep F st m).stats =
      st.stats.record_match m.team1 m.team2 m.team1_win m.date m.tier := by
  have hg : passesGate st.stats m = true ↔
      MIN_MATCHES ≤ st.stats.get_total_matches m.team1 ∧
        MIN_MATCHES ≤ st.stats.get_total_matches m.team2 := by
    simp [passesGate]
  refine ⟨?_, ?_, buildStep_elo F st m, buildStep_stats F st m⟩
  · rw [buildStep_rows]
    by_cases h : passesGate st.stats m = true
    · rw [if_pos h]
      simp only [List.length_append, List.length_singleton]
      exact ⟨fun _ => hg.mp h, fun _ => trivial⟩
    · rw [if_neg h]
      have hnot := (not_iff_not.mpr hg).mp h
      constructor
      · intro hlen
        exact absurd hlen (by omega)
      · intro hc
        exact absurd hc hnot
  · rw [buildStep_rows, buildStep_skipped]
    by_cases h : passesGate st.stats m = true
    · rw [if_pos h, if_pos h]
      constructor
      · intro hc
        have hlen := congrArg List.length hc.1
        simp at hlen
      · intro hc
        exact absurd (hg.mp h) hc
    · rw [if_neg h, if_neg h]
      have hnot := (not_iff_not.mpr hg).mp h
      exact ⟨fun _ => hnot, fun _ => ⟨rfl, rfl⟩⟩

/-- C9: two full passes from empty model state over the same ordered match
stream persist identical rating-model state and identical tracker state
(the serialized forms, entry order included, are equal). -/
theorem replay_determinism (F : FloatOps) (ms1 ms2 : List MatchRow)
    (st1 st2 : BuildState) (h1 : st1 = startState) (h2 : st2 = startState)
    (hms : ms1 = ms2) :
    saveElo (buildLoop F st1 ms1).elo = saveElo (buildLoop F st2 ms2).elo ∧
    saveStats (buildLoop F st1 ms1).stats = saveStats (buildLoop F st2 ms2).stats := by
  subst h1; subst h2; subst hms
  exact ⟨rfl, rfl⟩

/-- Witness for C9: the two runs over the synthetic 3-match sequence persist
the same rating-model state. -/
theorem replay_determinism_witness :
    startState = startState ∧ msSyn3 = msSyn3 ∧
    saveElo (buildLoop F0 startState msSyn3).elo =
      saveElo (buildLoop F0 startState msSyn3).elo :=
  ⟨rfl, rfl, (replay_determinism F0 msSyn3 msSyn3 startState startState rfl rfl rfl).1⟩

/-- C10: inside extraction, a win rate (overall or windowed) or form value
that the tracker reports as exactly 0 is emitted as 0.5 — the same value
emitted when the tracker reports no history at all — because defaulting
goes through Python `or` truthiness. -/
theorem zero_winrate_conflated_with_unseen (F : FloatOps) (elo : EloRatingSystem)
    (stats : TeamStatsTracker) (team1 team2 : Team) (d : String)
    (tier : Option String) (pp : Option ℚ) (tt : Option String) :
    ((stats.get_win_rate team1 none = some 0 ∨ stats.get_win_rate team1 none = none) →
      (extract_features F elo stats team1 team2 d tier pp tt).team1_wr_all = 1/2) ∧
    ((stats.get_win_rate team1 (some 20) = some 0 ∨
        stats.get_win_rate team1 (some 20) = none) →
      (extract_features F elo stats team1 team2 d tier pp tt).team1_wr_20 = 1/2) ∧
    ((stats.get_win_rate team1 (some 50) = some 0 ∨
        stats.get_win_rate team1 (some 50) = none) →
      (extract_features F elo stats team1 team2 d tier pp tt).team1_wr_50 = 1/2) ∧
    ((stats.get_recent_form team1 10 = some 0 ∨ stats.get_recent_form team1 10 = none) →
      (extract_features F elo stats team1 team2 d tier pp tt).team1_form = 1/2) := by
  refine ⟨?_, ?_, ?_, ?_⟩ <;>
    (intro h; rcases h with h | h <;> simp [extract_features, pyOr, h])

/-- Witness for C10: after five straight losses team `A` has win rate
exactly 0, and the extracted feature is 0.5. -/
theorem zero_winrate_conflated_with_unseen_witness :
    ((applyStats msWarm5).get_win_rate "A" none = some 0 ∨
      (applyStats msWarm5).get_win_rate "A" none = none) ∧
    (extract_features F0 emptyElo (applyStats msWarm5) "A" "B" "2020-01-06"
      none none none).team1_wr_all = 1/2 := by
  have h0 : (applyStats msWarm5).get_win_rate "A" none = some 0 := by
    rw [show (applyStats msWarm5).get_win_rate "A" none = some ((0 : ℚ)/5) from rfl]
    rw [zero_div]
  exact ⟨Or.inl h0,
    (zero_winrate_conflated_with_unseen F0 emptyElo (applyStats msWarm5) "A" "B"
      "2020-01-06" none none none).1 (Or.inl h0)⟩

/-- Six matches of team `T` with outcomes (oldest to newest)
win, win, loss, win, win, win. -/
def msStreak6 : List MatchRow :=
  [⟨"T", "O", true, "2020-01-01", none, none, none, none⟩,
   ⟨"T", "O", true, "2020-01-02", none, none, none, none⟩,
   ⟨"T", "O", false, "2020-01-03", none, none, none, none⟩,
   ⟨"T", "O", true, "2020-01-04", none, none, none, none⟩,
   ⟨"T", "O", true, "2020-01-05", none, none, none, none⟩,
   ⟨"T", "O", true, "2020-01-06", none, none, none, none⟩]

/-- Two matches of team `T`, both lost. -/
def msStreak2 : List MatchRow :=
  [⟨"T", "O", false, "2020-01-01", none, none, none, none⟩,
   ⟨"T", "O", false, "2020-01-02", none, none, none, none⟩]

/-- Modelled from the claim's words: the length of the most recent run of
identical outcomes, signed by whether that run is made of wins. -/
def lastRunSigned (outcomes : List Bool) : ℤ :=
  match outcomes.reverse with
  | [] => 0
  | b :: rest =>
    let run := 1 + (rest.takeWhile (fun x => x = b)).length
    if b then (run : ℤ) else -(run : ℤ)

theorem takeWhile_map_length {α β : Type} (f : α → β) (p : β → Bool) (l : List α) :
    ((l.map f).takeWhile p).length = (l.takeWhile (fun a => p (f a))).length := by
  induction l with
  | nil => rfl
  | cons a as ih =>
    by_cases h : p (f a) = true <;> simp [List.takeWhile_cons, h, ih]

/-- C6: for every tracker state and team, `get_win_streak` returns the
signed length of the most recent run of identical outcomes in that team's
history (0 with no history); in particular the histories
win,win,loss,win,win,win and loss,loss give 3 and -2. -/
theorem win_streak_is_last_run (t : TeamStatsTracker) (team : Team) :
    t.get_win_streak team = lastRunSigned ((historyOf t team).map Prod.snd) ∧
    (applyStats msStreak6).get_win_streak "T" = 3 ∧
    (applyStats msStreak2).get_win_streak "T" = -2 ∧
    emptyStats.get_win_streak team = 0 := by
  refine ⟨?_, by decide, by decide, rfl⟩
  rcases hl : lookupA team t.history with _ | hist
  · simp [TeamStatsTracker.get_win_streak, hl, historyOf, lastRunSigned]
  · cases hist with
    | nil => simp [TeamStatsTracker.get_win_streak, hl, historyOf, lastRunSigned]
    | cons p ps =>
      rcases hr : (p :: ps).reverse with _ | ⟨q, qs⟩
      · exact absurd hr (by simp)
      · have hlast : (p :: ps).getLast? = some q := by
          rw [← List.head?_reverse, hr]; rfl
        have hmap : ((p :: ps).map Prod.snd).reverse = q.2 :: List.map Prod.snd qs := by
          rw [← List.map_reverse, hr, List.map_cons]
        have hlen := takeWhile_map_length Prod.snd (fun x => decide (x = q.2)) qs
        simp only [TeamStatsTracker.get_win_streak, hl, historyOf, Option.getD_some,
          hlast]
        unfold lastRunSigned
        rw [hmap]
        simp only [hr, List.takeWhile_cons, decide_True, List.length_cons]
        rcases hq : q.2 with _ | _
        · simp only [hq] at hlen ⊢
          simp only [decide_True, if_true, if_false, Bool.false_eq_true]
          simp at hlen ⊢
          omega
        · simp only [hq] at hlen ⊢
          simp only [decide_True, if_true]
          simp at hlen ⊢
          omega

/-- Modelled from the claim's words: the fraction of wins over at most the
most recent `last_n` entries of the history (all of it when no window is
given), undefined when no entries fall in the window. -/
def win_rate_claim (hist : List (String × Bool)) (last_n : Option Nat) : Option ℚ :=
  let w := match last_n with
    | none => hist
    | some n => hist.drop (hist.length - n)
  if w = [] then none
  else some ((w.countP (fun p => p.2) : ℚ) / (w.length : ℚ))

/-- Three matches of team `A` with outcomes loss, win, win. -/
def msLww3 : List MatchRow :=
  [⟨"A", "B", false, "2020-01-01", none, none, none, none⟩,
   ⟨"A", "B", true, "2020-01-02", none, none, none, none⟩,
   ⟨"A", "B", true, "2020-01-03", none, none, none, none⟩]

/-- C7 counterexample: at `last_n = 0` the source slices `hist[-0:]`, which
is the whole history, so `get_win_rate` answers the full-history rate 2/3
even though the claim's window of at most 0 most-recent entries is empty. -/
theorem win_rate_window_counterexample :
    (applyStats msLww3).get_win_rate "A" (some 0) = some (2/3) ∧
    win_rate_claim (historyOf (applyStats msLww3) "A") (some 0) = none ∧
    some ((2 : ℚ)/3) ≠ (none : Option ℚ) := by
  refine ⟨?_, rfl, by simp⟩
  rw [show (applyStats msLww3).get_win_rate "A" (some 0)
      = some (((2 : ℕ) : ℚ) / ((3 : ℕ) : ℚ)) from rfl]
  norm_num

/-- C7 (amended: for a positive window, or no window): `get_win_rate` is
`None` on an empty history and otherwise the win fraction over at most the
most recent `last_n` entries (fewer when the history is shorter). -/
theorem win_rate_window (t : TeamStatsTracker) (team : Team) (last_n : Option Nat)
    (h : ∀ n, last_n = some n → 1 ≤ n) :
    t.get_win_rate team last_n = win_rate_claim (historyOf t team) last_n := by
  rcases hl : lookupA team t.history with _ | hist
  · rcases last_n with _ | n <;>
      simp [TeamStatsTracker.get_win_rate, hl, historyOf, win_rate_claim]
  · cases hist with
    | nil =>
      rcases last_n with _ | n <;>
        simp [TeamStatsTracker.get_win_rate, hl, historyOf, win_rate_claim]
    | cons p ps =>
      rcases last_n with _ | n
      · simp [TeamStatsTracker.get_win_rate, hl, historyOf, win_rate_claim]
      · have hn : 1 ≤ n := h n rfl
        have hne : n ≠ 0 := by omega
        have hwin : pyTail n (p :: ps) = (p :: ps).drop ((p :: ps).length - n) := by
          rw [pyTail, if_neg hne]
        have hlen : ((p :: ps).drop ((p :: ps).length - n)).length
            = (p :: ps).length - ((p :: ps).length - n) := List.length_drop _ _
        have hpos : 0 < ((p :: ps).drop ((p :: ps).length - n)).length := by
          rw [hlen]; simp only [List.length_cons]; omega
        have hni : (p :: ps).drop ((p :: ps).length - n) ≠ [] :=
          List.ne_nil_of_length_pos hpos
        simp only [TeamStatsTracker.get_win_rate, hl, historyOf, Option.getD_some,
          win_rate_claim, hwin, if_neg hni]

/-- Sixty matches of team `X`, three wins in every block of five, so the
most recent 20 contain exactly 12 wins. -/
def msWr60 : List MatchRow :=
  (List.range 60).map
    (fun i => ⟨"X", "Y", decide (i % 5 < 3), "2020-01-01", none, none, none, none⟩)

/-- Witness for C7 on the 60-match history of the claim's example: the
window equation holds at `last_n = 20` and the value is 12/20 = 0.6. -/
theorem win_rate_window_witness :
    (∀ n, (some 20 : Option Nat) = some n → 1 ≤ n) ∧
    (applyStats msWr60).get_win_rate "X" (some 20) =
      win_rate_claim (historyOf (applyStats msWr60) "X") (some 20) ∧
    (applyStats msWr60).get_win_rate "X" (some 20) = some (3/5) := by
  refine ⟨fun n hn => by have := Option.some.inj hn; omega, ?_, ?_⟩
  · exact win_rate_window (applyStats msWr60) "X" (some 20)
      (fun n hn => by have := Option.some.inj hn; omega)
  · rw [show (applyStats msWr60).get_win_rate "X" (some 20)
        = some (((12 : ℕ) : ℚ) / ((20 : ℕ) : ℚ)) from rfl]
    norm_num

/-- C1 counterexample: in a run where team `A` lost its five warm-up
matches, the tracker reports the (defined) win rate 0 when the sixth match
is extracted, yet the materialized row carries 0.5 — a win-rate statistic
was replaced by the neutral default inside the extraction step itself, not
in the fill pass. -/
theorem extraction_defaulting_counterexample :
    (buildLoop F0 startState (msWarm6.take 5)).stats.get_win_rate "A" none = some 0 ∧
    ((buildLoop F0 startState msWarm6).rows.map (fun r => r.feat.team1_wr_all))
      = [1/2] ∧
    ((1 : ℚ)/2 ≠ 0) := by
  refine ⟨?_, ?_, by norm_num⟩
  · rw [show (buildLoop F0 startState (msWarm6.take 5)).stats.get_win_rate "A" none
        = some ((0 : ℚ)/5) from rfl]
    rw [zero_div]
  · rw [show ((buildLoop F0 startState msWarm6).rows.map (fun r => r.feat.team1_wr_all))
        = [pyOr (some ((0 : ℚ)/5)) (1/2)] from rfl]
    rw [zero_div]
    simp [pyOr]

/-- C1 (amended): undefined head-to-head, tier win-rate and days-since-last
statistics (and the tier label) are carried through extraction as explicit
undefined values and only replaced by their neutral defaults in the separate
fill pass; streaks are taken verbatim; but the win-rate and form statistics
are defaulted to 0.5 inline inside extraction through Python `or`
truthiness, not in the fill pass. -/
theorem extraction_defaulting_split (F : FloatOps) (st : BuildState) (m : MatchRow)
    (hg : passesGate st.stats m = true) :
    (buildStep F st m).rows = st.rows ++ [extractRow F st.elo st.stats m] ∧
    (extractRow F st.elo st.stats m).feat.h2h_wr =
      st.stats.get_h2h_win_rate m.team1 m.team2 ∧
    (extractRow F st.elo st.stats m).feat.team1_days_since_last =
      st.stats.get_days_since_last_match m.team1 m.date ∧
    (extractRow F st.elo st.stats m).feat.team2_days_since_last =
      st.stats.get_days_since_last_match m.team2 m.date ∧
    (∀ tr, m.tier = some tr →
      (extractRow F st.elo st.stats m).feat.team1_tier_wr =
        st.stats.get_tier_win_rate m.team1 tr ∧
      (extractRow F st.elo st.stats m).feat.team2_tier_wr =
        st.stats.get_tier_win_rate m.team2 tr) ∧
    (extractRow F st.elo st.stats m).feat.team1_streak =
      st.stats.get_win_streak m.team1 ∧
    (extractRow F st.elo st.stats m).feat.team1_wr_all =
      pyOr (st.stats.get_win_rate m.team1 none) (1/2) ∧
    (extractRow F st.elo st.stats m).feat.team2_wr_all =
      pyOr (st.stats.get_win_rate m.team2 none) (1/2) ∧
    (extractRow F st.elo st.stats m).feat.team1_wr_20 =
      pyOr (st.stats.get_win_rate m.team1 (some 20)) (1/2) ∧
    (extractRow F st.elo st.stats m).feat.team1_wr_50 =
      pyOr (st.stats.get_win_rate m.team1 (some 50)) (1/2) ∧
    (extractRow F st.elo st.stats m).feat.team1_form =
      pyOr (st.stats.get_recent_form m.team1 10) (1/2) ∧
    (∀ r : FeatureRow,
      (fillRow r).h2h_wr = r.h2h_wr.getD (1/2) ∧
      (fillRow r).team1_tier_wr = r.team1_tier_wr.getD (1/2) ∧
      (fillRow r).team2_tier_wr = r.team2_tier_wr.getD (1/2) ∧
      (fillRow r).team1_days_since_last = r.team1_days_since_last.getD 30 ∧
      (fillRow r).team2_days_since_last = r.team2_days_since_last.getD 30 ∧
      (fillRow r).tier = r.tier.getD 4) := by
  refine ⟨?_, rfl, rfl, rfl, ?_, rfl, rfl, rfl, rfl, rfl, rfl,
    fun r => ⟨rfl, rfl, rfl, rfl, rfl, rfl⟩⟩
  · rw [buildStep_rows, if_pos hg]
  · intro tr htr
    constructor <;> simp [extractRow, extract_features, htr]

/-- The sixth `A` vs `B` match, extracted once both teams have five prior
matches. -/
def mGate6 : MatchRow := ⟨"A", "B", false, "2020-01-06", none, none, none, none⟩

/-- Witness for C1 (amended): the gate passes for the sixth match of the
warm-up run, and the step appends exactly the row extracted from the
pre-match state. -/
theorem extraction_defaulting_split_witness :
    passesGate (buildLoop F0 startState msWarm5).stats mGate6 = true ∧
    (buildStep F0 (buildLoop F0 startState msWarm5) mGate6).rows =
      (buildLoop F0 startState msWarm5).rows ++
        [extractRow F0 (buildLoop F0 startState msWarm5).elo
          (buildLoop F0 startState msWarm5).stats mGate6] :=
  ⟨by decide,
   (extraction_defaulting_split F0 (buildLoop F0 startState msWarm5) mGate6
     (by decide)).1⟩

/-! ### Head-to-head counting lemmas -/

theorem sumVals_updA_inc (w : Team) (rec : List (Team × Nat)) :
    TeamStatsTracker.sumVals (updA w 0 (· + 1) rec) =
      TeamStatsTracker.sumVals rec + 1 := by
  induction rec with
  | nil => simp [updA, TeamStatsTracker.sumVals]
  | cons p rest ih =>
    obtain ⟨k, v⟩ := p
    by_cases h : k = w
    · subst h; simp [updA, TeamStatsTracker.sumVals]; omega
    · simp only [updA, if_neg h, TeamStatsTracker.sumVals, List.map_cons,
        List.sum_cons] at ih ⊢
      omega

theorem getD_lookupA_updA_inc (w v : Team) (rec : List (Team × Nat)) :
    (lookupA v (updA w 0 (· + 1) rec)).getD 0 =
      (lookupA v rec).getD 0 + (if w = v then 1 else 0) := by
  by_cases h : w = v
  · subst h
    rw [lookupA_updA_self, if_pos rfl]
    simp
  · rw [lookupA_updA_ne _ _ _ _ _ h, if_neg h]
    simp

theorem h2hTotal_record (t : TeamStatsTracker) (t1 t2 : Team) (win : Bool)
    (d : String) (tier : Option String) (a b : Team) :
    h2hTotal (t.record_match t1 t2 win d tier) a b =
      h2hTotal t a b + (if sortPair t1 t2 = sortPair a b then 1 else 0) := by
  unfold h2hTotal TeamStatsTracker.record_match
  by_cases h : sortPair t1 t2 = sortPair a b
  · rw [if_pos h]
    simp only [← h, lookupA_updA_self]
    rcases hl : lookupA (sortPair t1 t2) t.h2h with _ | rec
    · simp [sumVals_updA_inc, TeamStatsTracker.sumVals, updA]
    · simp [sumVals_updA_inc]
  · rw [if_neg h]
    rw [lookupA_updA_ne _ _ _ _ _ h]
    omega

theorem h2hWins_record (t : TeamStatsTracker) (t1 t2 : Team) (win : Bool)
    (d : String) (tier : Option String) (a b w : Team) :
    h2hWins (t.record_match t1 t2 win d tier) a b w =
      h2hWins t a b w +
        (if sortPair t1 t2 = sortPair a b ∧ (if win then t1 else t2) = w
          then 1 else 0) := by
  unfold h2hWins TeamStatsTracker.record_match
  by_cases h : sortPair t1 t2 = sortPair a b
  · simp only [← h, lookupA_updA_self]
    rcases hl : lookupA (sortPair t1 t2) t.h2h with _ | rec
    · simp only [Option.getD_none, Option.getD_some]
      rw [getD_lookupA_updA_inc]
      simp [h, lookupA]
    · simp only [Option.getD_some]
      rw [getD_lookupA_updA_inc]
      simp [h]
  · rw [lookupA_updA_ne _ _ _ _ _ h]
    simp [h]

theorem h2hTotal_statsFold (ms : List MatchRow) (t : TeamStatsTracker)
    (a b : Team) :
    h2hTotal (statsFold t ms) a b = h2hTotal t a b + countPair a b ms := by
  induction ms generalizing t with
  | nil => simp [statsFold, countPair]
  | cons m rest ih =>
    rw [show statsFold t (m :: rest) =
      statsFold (t.record_match m.team1 m.team2 m.team1_win m.date m.tier) rest
      from rfl]
    rw [ih, h2hTotal_record]
    simp only [countPair, List.countP_cons]
    by_cases h : sortPair m.team1 m.team2 = sortPair a b
    · simp [h, countPair]
      omega
    · simp [h, countPair]

theorem h2hWins_statsFold (ms : List MatchRow) (t : TeamStatsTracker)
    (a b w : Team) :
    h2hWins (statsFold t ms) a b w = h2hWins t a b w + countPairWin a b w ms := by
  induction ms generalizing t with
  | nil => simp [statsFold, countPairWin]
  | cons m rest ih =>
    rw [show statsFold t (m :: rest) =
      statsFold (t.record_match m.team1 m.team2 m.team1_win m.date m.tier) rest
      from rfl]
    rw [ih, h2hWins_record]
    simp only [countPairWin, List.countP_cons]
    by_cases h : sortPair m.team1 m.team2 = sortPair a b
    · by_cases hw : winnerOf m = w
      · simp only [winnerOf] at hw
        simp [h, hw, countPairWin, winnerOf]
        omega
      · simp only [winnerOf] at hw
        simp [h, hw, countPairWin, winnerOf]
    · simp [h, countPairWin]

theorem sortPair_eq_cases (x y a b : Team) (h : sortPair x y = sortPair a b) :
    (x = a ∧ y = b) ∨ (x = b ∧ y = a) := by
  unfold sortPair at h
  cases hx : charsLt y.toList x.toList <;> cases hy : charsLt b.toList a.toList <;>
    rw [hx, hy] at h <;> simp at h
  · exact Or.inl ⟨h.1, h.2⟩
  · exact Or.inr ⟨h.1, h.2⟩
  · exact Or.inr ⟨h.2, h.1⟩
  · exact Or.inl ⟨h.2, h.1⟩

theorem get_h2h_eq (t : TeamStatsTracker) (a b : Team) :
    t.get_h2h_win_rate a b =
      if h2hTotal t a b = 0 then none
      else some ((h2hWins t a b a : ℚ) / (h2hTotal t a b : ℚ)) := by
  unfold TeamStatsTracker.get_h2h_win_rate h2hTotal h2hWins
  rcases hl : lookupA (sortPair a b) t.h2h with _ | rec
  · simp
  · cases rec with
    | nil => simp [TeamStatsTracker.sumVals]
    | cons p rest =>
      by_cases h : TeamStatsTracker.sumVals (p :: rest) = 0 <;> simp [h]

theorem countPair_split (a b : Team) (hab : a ≠ b) (ms : List MatchRow) :
    countPairWin a b a ms + countPairWin a b b ms = countPair a b ms := by
  induction ms with
  | nil => simp [countPair, countPairWin]
  | cons m rest ih =>
    simp only [countPair, countPairWin, List.countP_cons] at ih ⊢
    by_cases h : sortPair m.team1 m.team2 = sortPair a b
    · have hw : winnerOf m = a ∨ winnerOf m = b := by
        rcases sortPair_eq_cases _ _ _ _ h with ⟨h1, h2⟩ | ⟨h1, h2⟩ <;>
          (unfold winnerOf; by_cases hwin : m.team1_win = true <;> simp [hwin, h1, h2])
      have hba : ¬b = a := fun hc => hab hc.symm
      rcases hw with hw | hw
      · simp [h, hw, hab]
        omega
      · simp [h, hw, hba]
        omega
    · simp [h]
      omega

/-- A degenerate self-match: the same name on both sides. -/
def mSelf : MatchRow := ⟨"X", "X", true, "2020-01-01", none, none, none, none⟩

/-- C5 counterexample: after one recorded `X` vs `X` match the pair has met,
`h2h_win_rate("X", "X")` is 1, and the claimed symmetry sum is 1 + 1 = 2,
not 1. -/
theorem h2h_symmetry_counterexample :
    1 ≤ countPair "X" "X" [mSelf] ∧
    (applyStats [mSelf]).get_h2h_win_rate "X" "X" = some 1 ∧
    ¬((1 : ℚ) + 1 = 1) := by
  refine ⟨by decide, ?_, by norm_num⟩
  rw [show (applyStats [mSelf]).get_h2h_win_rate "X" "X"
      = some (((1 : ℕ) : ℚ) / ((1 : ℕ) : ℚ)) from rfl]
  norm_num

/-- C5 (amended: for two distinct entities): whenever a pair of distinct
teams has met at least once in the recorded history, both head-to-head
rates are defined and, being read from the same canonical order-independent
record, sum to exactly 1; a pair that has never met gets `None` in both
directions. -/
theorem h2h_symmetry (ms : List MatchRow) (a b : Team) (hab : a ≠ b) :
    (1 ≤ countPair a b ms →
      ((applyStats ms).get_h2h_win_rate a b).getD 0 +
        ((applyStats ms).get_h2h_win_rate b a).getD 0 = 1 ∧
      ((applyStats ms).get_h2h_win_rate a b).isSome = true ∧
      ((applyStats ms).get_h2h_win_rate b a).isSome = true) ∧
    (countPair a b ms = 0 →
      (applyStats ms).get_h2h_win_rate a b = none ∧
      (applyStats ms).get_h2h_win_rate b a = none) := by
  have htot : h2hTotal (applyStats ms) a b = countPair a b ms := by
    rw [applyStats, h2hTotal_statsFold]
    simp [h2hTotal, lookupA, emptyStats]
  have htotBA : h2hTotal (applyStats ms) b a = h2hTotal (applyStats ms) a b := by
    unfold h2hTotal
    rw [sortPair_comm b a]
  have hwinsA : h2hWins (applyStats ms) a b a = countPairWin a b a ms := by
    rw [applyStats, h2hWins_statsFold]
    simp [h2hWins, lookupA, emptyStats]
  have hwinsBA : h2hWins (applyStats ms) b a b = h2hWins (applyStats ms) a b b := by
    unfold h2hWins
    rw [sortPair_comm b a]
  have hwinsB : h2hWins (applyStats ms) a b b = countPairWin a b b ms := by
    rw [applyStats, h2hWins_statsFold]
    simp [h2hWins, lookupA, emptyStats]
  constructor
  · intro hmet
    have hne : h2hTotal (applyStats ms) a b ≠ 0 := by rw [htot]; omega
    have hneBA : h2hTotal (applyStats ms) b a ≠ 0 := by rw [htotBA]; exact hne
    refine ⟨?_, ?_, ?_⟩
    · rw [get_h2h_eq, if_neg hne, get_h2h_eq _ b a, if_neg hneBA]
      simp only [Option.getD_some]
      rw [htotBA, div_add_div_same, hwinsBA, ← Nat.cast_add]
      rw [hwinsA, hwinsB, htot, countPair_split a b hab ms, ← htot]
      exact div_self (Nat.cast_ne_zero.mpr hne)
    · rw [get_h2h_eq, if_neg hne]; rfl
    · rw [get_h2h_eq _ b a, if_neg hneBA]; rfl
  · intro hz
    have h0 : h2hTotal (applyStats ms) a b = 0 := by rw [htot]; exact hz
    have h0BA : h2hTotal (applyStats ms) b a = 0 := by rw [htotBA]; exact h0
    exact ⟨by rw [get_h2h_eq, if_pos h0], by rw [get_h2h_eq _ b a, if_pos h0BA]⟩

/-- Witness for C5 on the synthetic 3-match `X` vs `Y` history. -/
theorem h2h_symmetry_witness :
    (("X" : Team) ≠ "Y") ∧ 1 ≤ countPair "X" "Y" msSyn3 ∧
    (((applyStats msSyn3).get_h2h_win_rate "X" "Y").getD 0 +
      ((applyStats msSyn3).get_h2h_win_rate "Y" "X").getD 0 = 1 ∧
    ((applyStats msSyn3).get_h2h_win_rate "X" "Y").isSome = true ∧
    ((applyStats msSyn3).get_h2h_win_rate "Y" "X").isSome = true) :=
  ⟨by decide, by decide, (h2h_symmetry msSyn3 "X" "Y" (by decide)).1 (by decide)⟩

/-- C8 counterexample: recording a degenerate self-match increments the
(single) participant's total by 2, not by exactly 1. -/
theorem record_monotonic_counterexample :
    (emptyStats.record_match "X" "X" true "2020-01-01" none).get_total_matches "X"
      = 2 ∧
    emptyStats.get_total_matches "X" = 0 ∧ (2 : Nat) ≠ 0 + 1 :=
  ⟨rfl, rfl, by omega⟩

/-- C8 (amended: for two distinct participants): `record_match(A, B, …)`
raises `total_matches` of `A` and of `B` by exactly 1 and the canonical
pair's head-to-head total by exactly 1, never removes or mutates a stored
history entry (every team's history is extended, by append, or untouched),
and over any recorded stream the head-to-head total of a pair equals the
number of matches recorded between that pair. -/
theorem record_match_exposure (t : TeamStatsTracker) (a b : Team) (win : Bool)
    (d : String) (tier : Option String) (hab : a ≠ b) :
    (t.record_match a b win d tier).get_total_matches a
      = t.get_total_matches a + 1 ∧
    (t.record_match a b win d tier).get_total_matches b
      = t.get_total_matches b + 1 ∧
    h2hTotal (t.record_match a b win d tier) a b = h2hTotal t a b + 1 ∧
    (∀ team, ∃ s, historyOf (t.record_match a b win d tier) team
      = historyOf t team ++ s) ∧
    (∀ ms, h2hTotal (applyStats ms) a b = countPair a b ms) := by
  have hba : b ≠ a := fun hc => hab hc.symm
  refine ⟨?_, ?_, ?_, ?_, ?_⟩
  · unfold TeamStatsTracker.get_total_matches TeamStatsTracker.record_match
    rw [lookupA_updA_ne _ _ _ _ _ hba, lookupA_updA_self]
    simp
  · unfold TeamStatsTracker.get_total_matches TeamStatsTracker.record_match
    rw [lookupA_updA_self, lookupA_updA_ne _ _ _ _ _ hab]
    simp
  · rw [h2hTotal_record, if_pos rfl]
  · intro team
    by_cases hta : team = a
    · subst hta
      refine ⟨[(d, win)], ?_⟩
      unfold historyOf TeamStatsTracker.record_match
      rw [lookupA_updA_ne _ _ _ _ _ hba, lookupA_updA_self]
      simp
    · by_cases htb : team = b
      · subst htb
        refine ⟨[(d, !win)], ?_⟩
        unfold historyOf TeamStatsTracker.record_match
        rw [lookupA_updA_self, lookupA_updA_ne _ _ _ _ _ hab]
        simp
      · refine ⟨[], ?_⟩
        unfold historyOf TeamStatsTracker.record_match
        rw [lookupA_updA_ne _ _ _ _ _ (fun hc => htb hc.symm),
          lookupA_updA_ne _ _ _ _ _ (fun hc => hta hc.symm)]
        simp
  · intro ms
    rw [applyStats, h2hTotal_statsFold]
    simp [h2hTotal, lookupA, emptyStats]

/-- Witness for C8: recording one `A` vs `B` match on the empty tracker
raises `total_matches("A")` from 0 to 1. -/
theorem record_match_exposure_witness :
    (("A" : Team) ≠ "B") ∧
    (emptyStats.record_match "A" "B" true "2020-01-01" none).get_total_matches "A"
      = emptyStats.get_total_matches "A" + 1 :=
  ⟨by decide,
   (record_match_exposure emptyStats "A" "B" true "2020-01-01" none (by decide)).1⟩

/-! ### Serialization lemmas (C4) -/

/-- No `'|'` (the head-to-head key separator) occurs in a team name. -/
def noBar (s : Team) : Prop := ∀ c ∈ s.toList, c ≠ '|'

theorem splitBarAux_nobar (a : List Char) (acc : List Char)
    (h : ∀ c ∈ a, c ≠ '|') : splitBarAux a acc = [acc.reverse ++ a] := by
  induction a generalizing acc with
  | nil => simp [splitBarAux]
  | cons c cs ih =>
    have hc : c ≠ '|' := h c (List.mem_cons_self c cs)
    simp only [splitBarAux, if_neg hc]
    rw [ih (c :: acc) (fun x hx => h x (List.mem_cons_of_mem c hx))]
    simp

theorem splitBarAux_append (a b : List Char) (acc : List Char)
    (h : ∀ c ∈ a, c ≠ '|') :
    splitBarAux (a ++ '|' :: b) acc = (acc.reverse ++ a) :: splitBarAux b [] := by
  induction a generalizing acc with
  | nil => simp [splitBarAux]
  | cons c cs ih =>
    have hc : c ≠ '|' := h c (List.mem_cons_self c cs)
    simp only [List.cons_append, splitBarAux, if_neg hc, List.append_eq]
    rw [ih (c :: acc) (fun x hx => h x (List.mem_cons_of_mem c hx))]
    simp

/-- Joining two separator-free names with `"|"` and splitting again gives
the two names back. -/
theorem splitBar_joinBar_pair (a b : List Char) (ha : ∀ c ∈ a, c ≠ '|')
    (hb : ∀ c ∈ b, c ≠ '|') : splitBar (joinBar [a, b]) = [a, b] := by
  rw [show joinBar [a, b] = a ++ '|' :: b from rfl]
  unfold splitBar
  rw [splitBarAux_append a b [] ha, splitBarAux_nobar b [] hb]
  simp

theorem mk_toList (s : String) : String.mk s.toList = s := by
  cases s; rfl

theorem setA_append_of_not_mem {κ α : Type} [DecidableEq κ] (k : κ) (v : α)
    (m : List (κ × α)) (h : k ∉ m.map Prod.fst) : setA k v m = m ++ [(k, v)] := by
  induction m with
  | nil => rfl
  | cons p rest ih =>
    obtain ⟨k', v'⟩ := p
    simp only [List.map_cons, List.mem_cons] at h
    push_neg at h
    have hne : ¬k' = k := fun hc => h.1 hc.symm
    simp [setA, hne, ih h.2]

theorem updA_append_of_not_mem {κ α : Type} [DecidableEq κ] (k : κ) (d : α)
    (f : α → α) (m : List (κ × α)) (h : k ∉ m.map Prod.fst) :
    updA k d f m = m ++ [(k, f d)] := by
  induction m with
  | nil => rfl
  | cons p rest ih =>
    obtain ⟨k', v'⟩ := p
    simp only [List.map_cons, List.mem_cons] at h
    push_neg at h
    have hne : ¬k' = k := fun hc => h.1 hc.symm
    simp [updA, hne, ih h.2]

theorem updA_last_of_not_mem {κ α : Type} [DecidableEq κ] (k : κ) (d : α)
    (f : α → α) (m : List (κ × α)) (v : α) (h : k ∉ m.map Prod.fst) :
    updA k d f (m ++ [(k, v)]) = m ++ [(k, f v)] := by
  induction m with
  | nil => simp [updA]
  | cons p rest ih =>
    obtain ⟨k', v'⟩ := p
    simp only [List.map_cons, List.mem_cons] at h
    push_neg at h
    have hne : ¬k' = k := fun hc => h.1 hc.symm
    simp [updA, hne, ih h.2]

theorem foldl_setA_of_nodup {κ α : Type} [DecidableEq κ] (l : List (κ × α)) :
    ∀ acc : List (κ × α), (((acc ++ l).map Prod.fst).Nodup) →
      l.foldl (fun a p => setA p.1 p.2 a) acc = acc ++ l := by
  induction l with
  | nil => intro acc _; simp
  | cons p rest ih =>
    intro acc h
    obtain ⟨k, v⟩ := p
    have hk : k ∉ acc.map Prod.fst := by
      intro hmem
      rw [List.map_append] at h
      rcases (List.nodup_append.mp h) with ⟨_, _, hdis⟩
      exact hdis hmem (by simp)
    rw [List.foldl_cons]
    rw [setA_append_of_not_mem k v acc hk]
    have h' : (((acc ++ [(k, v)]) ++ rest).map Prod.fst).Nodup := by
      rw [List.append_assoc, List.singleton_append]
      exact h
    rw [ih (acc ++ [(k, v)]) h']
    simp

theorem loadFold_self {κ α : Type} [DecidableEq κ] (l : List (κ × α))
    (h : (l.map Prod.fst).Nodup) : loadFold l = l := by
  have := foldl_setA_of_nodup l [] (by simpa using h)
  simpa [loadFold] using this

theorem tier_inner_fold (team : Team)
    (rest : List (String × List (String × Bool)))
    (acc : List (Team × List (String × List (String × Bool))))
    (pm : List (String × List (String × Bool)))
    (hteam : team ∉ acc.map Prod.fst)
    (h : ((pm ++ rest).map Prod.fst).Nodup) :
    rest.foldl (fun a2 q => updA team [] (setA q.1 q.2) a2) (acc ++ [(team, pm)])
      = acc ++ [(team, pm ++ rest)] := by
  induction rest generalizing pm with
  | nil => simp
  | cons q qs ih =>
    obtain ⟨tk, tv⟩ := q
    have htk : tk ∉ pm.map Prod.fst := by
      intro hmem
      rw [List.map_append] at h
      rcases (List.nodup_append.mp h) with ⟨_, _, hdis⟩
      exact hdis hmem (by simp)
    rw [List.foldl_cons]
    rw [updA_last_of_not_mem team [] _ acc pm hteam]
    rw [setA_append_of_not_mem tk tv pm htk]
    have h' : (((pm ++ [(tk, tv)]) ++ qs).map Prod.fst).Nodup := by
      rw [List.append_assoc, List.singleton_append]
      exact h
    rw [ih (pm ++ [(tk, tv)]) h']
    simp

theorem loadTierFold_go (l : List (Team × List (String × List (String × Bool)))) :
    ∀ acc, (((acc ++ l).map Prod.fst).Nodup) →
      (∀ p ∈ l, ((p.2.map Prod.fst).Nodup ∧ p.2 ≠ [])) →
      l.foldl (fun acc p =>
          p.2.foldl (fun a2 q => updA p.1 [] (setA q.1 q.2) a2) acc) acc
        = acc ++ l := by
  induction l with
  | nil => intro acc _ _; simp
  | cons p ps ih =>
    intro acc h hinner
    obtain ⟨team, tiers⟩ := p
    obtain ⟨hnd, hne⟩ := hinner ⟨team, tiers⟩ (List.mem_cons_self _ _)
    have hteam : team ∉ acc.map Prod.fst := by
      intro hmem
      rw [List.map_append] at h
      rcases (List.nodup_append.mp h) with ⟨_, _, hdis⟩
      exact hdis hmem (by simp)
    cases tiers with
    | nil => exact absurd rfl hne
    | cons q qs =>
      obtain ⟨tk, tv⟩ := q
      rw [List.foldl_cons]
      have hstep :
          (((tk, tv) :: qs).foldl (fun a2 q => updA team [] (setA q.1 q.2) a2) acc)
            = acc ++ [(team, (tk, tv) :: qs)] := by
        rw [List.foldl_cons]
        rw [updA_append_of_not_mem team [] _ acc hteam]
        rw [show setA tk tv ([] : List (String × List (String × Bool)))
            = [(tk, tv)] from rfl]
        have hnd' : (([(tk, tv)] ++ qs).map Prod.fst).Nodup := by
          simpa using hnd
        rw [tier_inner_fold team qs acc [(tk, tv)] hteam hnd']
        simp
      rw [hstep]
      have h' : (((acc ++ [(team, (tk, tv) :: qs)]) ++ ps).map Prod.fst).Nodup := by
        rw [List.append_assoc, List.singleton_append]
        exact h
      rw [ih (acc ++ [(team, (tk, tv) :: qs)]) h'
        (fun p hp => hinner p (List.mem_cons_of_mem _ hp))]
      simp

theorem loadTierFold_self (l : List (Team × List (String × List (String × Bool))))
    (h : (l.map Prod.fst).Nodup)
    (hinner : ∀ p ∈ l, ((p.2.map Prod.fst).Nodup ∧ p.2 ≠ [])) :
    loadTierFold l = l := by
  have := loadTierFold_go l [] (by simpa using h) hinner
  simpa [loadTierFold] using this

/-! ### Well-formedness of reachable states (C4) -/

/-- A successful lookup locates an entry of the map. -/
theorem lookupA_mem {κ α : Type} [DecidableEq κ] {k : κ} {v : α}
    {m : List (κ × α)} (h : lookupA k m = some v) : (k, v) ∈ m := by
  induction m with
  | nil => simp [lookupA] at h
  | cons p rest ih =>
    obtain ⟨k', v'⟩ := p
    by_cases hk : k' = k
    · subst hk
      simp only [lookupA] at h
      rw [if_pos trivial] at h
      rw [Option.some.injEq] at h
      subst h
      exact List.mem_cons_self _ _
    · simp only [lookupA, if_neg hk] at h
      exact List.mem_cons_of_mem _ (ih h)

/-- Every entry of `updA` is the touched key or was already there. -/
theorem mem_updA {κ α : Type} [DecidableEq κ] (k : κ) (d : α) (f : α → α)
    (m : List (κ × α)) (p : κ × α) (hp : p ∈ updA k d f m) :
    (p.1 = k ∧ p.2 = f ((lookupA k m).getD d)) ∨ p ∈ m := by
  induction m with
  | nil =>
    rw [show updA k d f [] = [(k, f d)] from rfl, List.mem_singleton] at hp
    subst hp
    left
    simp [lookupA]
  | cons q rest ih =>
    obtain ⟨k', v'⟩ := q
    by_cases h : k' = k
    · subst h
      rw [show updA k' d f ((k', v') :: rest) = (k', f v') :: rest from by
        simp [updA]] at hp
      rcases List.mem_cons.mp hp with hp1 | hp1
      · subst hp1
        left
        simp [lookupA]
      · right
        exact List.mem_cons_of_mem _ hp1
    · rw [show updA k d f ((k', v') :: rest) = (k', v') :: updA k d f rest from by
        simp [updA, h]] at hp
      rcases List.mem_cons.mp hp with hp1 | hp1
      · subst hp1
        right
        exact List.mem_cons_self _ _
      · rcases ih hp1 with ⟨hh1, hh2⟩ | hh
        · left
          refine ⟨hh1, ?_⟩
          rw [hh2]
          have : lookupA k ((k', v') :: rest) = lookupA k rest := by
            simp [lookupA, h]
          rw [this]
        · right
          exact List.mem_cons_of_mem _ hh

/-- `updA` never produces an empty map. -/
theorem updA_ne_nil {κ α : Type} [DecidableEq κ] (k : κ) (d : α) (f : α → α)
    (m : List (κ × α)) : updA k d f m ≠ [] := by
  cases m with
  | nil => simp [updA]
  | cons p rest =>
    obtain ⟨k', v'⟩ := p
    by_cases h : k' = k <;> simp [updA, h]

/-- All association lists of a tracker state have distinct keys and its
tier maps are nonempty: the dict-shaped facts every Python state enjoys. -/
def WFStats (t : TeamStatsTracker) : Prop :=
  (t.history.map Prod.fst).Nodup ∧
  (t.tier_history.map Prod.fst).Nodup ∧
  (∀ p ∈ t.tier_history, ((p.2.map Prod.fst).Nodup ∧ p.2 ≠ [])) ∧
  (t.h2h.map Prod.fst).Nodup ∧
  (t.last_match_date.map Prod.fst).Nodup

/-- Every head-to-head key is a two-name key of separator-free names. -/
def GoodH2h (t : TeamStatsTracker) : Prop :=
  ∀ p ∈ t.h2h, ∃ x y, p.1 = [x, y] ∧ noBar x ∧ noBar y

/-- Both rating-model maps have distinct keys. -/
def WFElo (es : EloRatingSystem) : Prop :=
  (es.ratings.map Prod.fst).Nodup ∧ (es.match_counts.map Prod.fst).Nodup

theorem wfStats_record (t : TeamStatsTracker) (a b : Team) (win : Bool)
    (d : String) (tier : Option String) (h : WFStats t) :
    WFStats (t.record_match a b win d tier) := by
  obtain ⟨h1, h2, h3, h4, h5⟩ := h
  refine ⟨?_, ?_, ?_, ?_, ?_⟩
  · exact nodup_keys_updA _ _ _ _ (nodup_keys_updA _ _ _ _ h1)
  · rcases tier with _ | tr
    · exact h2
    · exact nodup_keys_updA _ _ _ _ (nodup_keys_updA _ _ _ _ h2)
  · rcases tier with _ | tr
    · exact h3
    · intro p hp
      have hinner : ∀ q ∈ updA a [] (updA tr [] (· ++ [(d, win)])) t.tier_history,
          ((q.2.map Prod.fst).Nodup ∧ q.2 ≠ []) := by
        intro q hq
        rcases mem_updA _ _ _ _ _ hq with ⟨hk1, hv1⟩ | hq'
        · constructor
          · rw [hv1]
            apply nodup_keys_updA
            rcases hl2 : lookupA a t.tier_history with _ | v2
            · simp
            · simp only [Option.getD_some]
              exact (h3 (a, v2) (lookupA_mem hl2)).1
          · rw [hv1]
            exact updA_ne_nil _ _ _ _
        · exact h3 q hq'
      rcases mem_updA _ _ _ _ _ hp with ⟨hk1, hv1⟩ | hp'
      · constructor
        · rw [hv1]
          apply nodup_keys_updA
          rcases hl2 : lookupA b
              (updA a [] (updA tr [] (· ++ [(d, win)])) t.tier_history) with _ | v2
          · simp
          · simp only [Option.getD_some]
            exact (hinner (b, v2) (lookupA_mem hl2)).1
        · rw [hv1]
          exact updA_ne_nil _ _ _ _
      · exact hinner p hp'
  · exact nodup_keys_updA _ _ _ _ h4
  · exact nodup_keys_setA _ _ _ (nodup_keys_setA _ _ _ h5)

theorem sortPair_is_pair (a b : Team) : sortPair a b = [a, b] ∨ sortPair a b = [b, a] := by
  unfold sortPair
  by_cases h : charsLt b.toList a.toList = true
  · rw [if_pos h]
    exact Or.inr rfl
  · rw [if_neg h]
    exact Or.inl rfl

theorem goodH2h_record (t : TeamStatsTracker) (a b : Team) (win : Bool)
    (d : String) (tier : Option String) (hna : noBar a) (hnb : noBar b)
    (h : GoodH2h t) : GoodH2h (t.record_match a b win d tier) := by
  intro p hp
  rcases mem_updA _ _ _ _ _ hp with ⟨hk, _⟩ | hp'
  · rcases sortPair_is_pair a b with hs | hs
    · exact ⟨a, b, by rw [hk, hs], hna, hnb⟩
    · exact ⟨b, a, by rw [hk, hs], hnb, hna⟩
  · exact h p hp'

theorem wfElo_update (F : FloatOps) (es : EloRatingSystem) (a b : Team)
    (win : Bool) (h : WFElo es) : WFElo (es.update F a b win) :=
  ⟨nodup_keys_setA _ _ _ (nodup_keys_setA _ _ _ h.1),
   nodup_keys_updA _ _ _ _ (nodup_keys_updA _ _ _ _
     (nodup_keys_updA _ _ _ _ (nodup_keys_updA _ _ _ _ h.2)))⟩

theorem wfStats_statsFold (ms : List MatchRow) :
    ∀ t, WFStats t → WFStats (statsFold t ms) := by
  induction ms with
  | nil => intro t h; exact h
  | cons m rest ih =>
    intro t h
    exact ih _ (wfStats_record _ _ _ _ _ _ h)

theorem wfStats_applyStats (ms : List MatchRow) : WFStats (applyStats ms) :=
  wfStats_statsFold ms emptyStats
    ⟨List.nodup_nil, List.nodup_nil, by simp [emptyStats], List.nodup_nil,
      List.nodup_nil⟩

theorem goodH2h_statsFold (ms : List MatchRow) :
    ∀ t, GoodH2h t → (∀ m ∈ ms, noBar m.team1 ∧ noBar m.team2) →
      GoodH2h (statsFold t ms) := by
  induction ms with
  | nil => intro t h _; exact h
  | cons m rest ih =>
    intro t h hn
    have hm := hn m (List.mem_cons_self _ _)
    exact ih _ (goodH2h_record _ _ _ _ _ _ hm.1 hm.2 h)
      (fun m' hm' => hn m' (List.mem_cons_of_mem _ hm'))

theorem goodH2h_applyStats (ms : List MatchRow)
    (hn : ∀ m ∈ ms, noBar m.team1 ∧ noBar m.team2) : GoodH2h (applyStats ms) :=
  goodH2h_statsFold ms emptyStats (by intro p hp; simp [emptyStats] at hp) hn

theorem wfElo_eloFold (F : FloatOps) (ms : List MatchRow) :
    ∀ es, WFElo es → WFElo (eloFold F es ms) := by
  induction ms with
  | nil => intro es h; exact h
  | cons m rest ih =>
    intro es h
    exact ih _ (wfElo_update F es _ _ _ h)

theorem wfElo_applyElo (F : FloatOps) (ms : List MatchRow) :
    WFElo (applyElo F ms) :=
  wfElo_eloFold F ms emptyElo ⟨List.nodup_nil, List.nodup_nil⟩

/-- A well-formed rating model survives save/load unchanged. -/
theorem loadElo_saveElo (es : EloRatingSystem) (h : WFElo es) :
    loadElo (saveElo es) = es := by
  unfold loadElo saveElo
  rw [loadFold_self es.ratings h.1, loadFold_self es.match_counts h.2]

/-- A well-formed tracker with separator-free head-to-head keys survives
save/load unchanged. -/
theorem loadStats_saveStats (t : TeamStatsTracker) (hwf : WFStats t)
    (hg : GoodH2h t) : loadStats (saveStats t) = t := by
  obtain ⟨h1, h2, h3, h4, h5⟩ := hwf
  have hmap : (saveStats t).h2h.map (fun p => ((splitBar p.1).map String.mk, p.2))
      = t.h2h := by
    unfold saveStats
    rw [List.map_map]
    have hid : ∀ p ∈ t.h2h,
        ((fun p => ((splitBar p.1).map String.mk, p.2)) ∘
          (fun p => (joinBar (p.1.map String.toList), p.2))) p = p := by
      intro p hp
      obtain ⟨x, y, hxy, hx, hy⟩ := hg p hp
      simp only [Function.comp]
      rw [hxy]
      rw [show ([x, y].map String.toList) = [x.toList, y.toList] from rfl]
      rw [splitBar_joinBar_pair x.toList y.toList hx hy]
      rw [show ([x.toList, y.toList].map String.mk)
          = [String.mk x.toList, String.mk y.toList] from rfl]
      rw [mk_toList, mk_toList, ← hxy]
    rw [List.map_congr_left hid]
    simp
  have e1 : loadFold (saveStats t).history = t.history := loadFold_self _ h1
  have e2 : loadTierFold (saveStats t).tier_history = t.tier_history :=
    loadTierFold_self _ h2 h3
  have e3 : loadFold ((saveStats t).h2h.map
      (fun p => ((splitBar p.1).map String.mk, p.2))) = t.h2h := by
    rw [hmap]
    exact loadFold_self _ h4
  unfold loadStats
  rw [e1, e2, e3]
  rfl

instance noBarDecidable (s : Team) : Decidable (noBar s) :=
  List.decidableBAll _ _

/-- One match against a team whose name contains the `"|"` separator. -/
def msBar : List MatchRow := [⟨"a", "b|c", true, "2020-01-01", none, none, none, none⟩]

/-- C4 counterexample: a team name containing `"|"` breaks the head-to-head
key round-trip — `"a"` vs `"b|c"` serializes its pair key to `"a|b|c"`,
which deserializes to a three-part key, so after save/load the pair's
head-to-head query answers `None` instead of 1. -/
theorem save_load_roundtrip_counterexample :
    (applyStats msBar).get_h2h_win_rate "a" "b|c" = some 1 ∧
    (loadStats (saveStats (applyStats msBar))).get_h2h_win_rate "a" "b|c" = none ∧
    some (1 : ℚ) ≠ (none : Option ℚ) := by
  refine ⟨?_, rfl, by simp⟩
  rw [show (applyStats msBar).get_h2h_win_rate "a" "b|c"
      = some (((1 : ℕ) : ℚ) / ((1 : ℕ) : ℚ)) from rfl]
  norm_num

/-- C4 (amended: provided no entity name contains the head-to-head key
separator `"|"`): for every reachable state of both models, save followed by
load reproduces the exact state, hence identical answers for every query of
sections 4.1/4.2 — for every entity (present before saving or not), every
pair, every tier label and every date argument. -/
theorem save_load_roundtrip (F : FloatOps) (ms : List MatchRow)
    (h : ∀ m ∈ ms, noBar m.team1 ∧ noBar m.team2) :
    loadStats (saveStats (applyStats ms)) = applyStats ms ∧
    loadElo (saveElo (applyElo F ms)) = applyElo F ms ∧
    (∀ team, (loadElo (saveElo (applyElo F ms))).get_rating team
      = (applyElo F ms).get_rating team) ∧
    (∀ team, (loadElo (saveElo (applyElo F ms))).get_match_count team
      = (applyElo F ms).get_match_count team) ∧
    (∀ team n, (loadStats (saveStats (applyStats ms))).get_win_rate team n
      = (applyStats ms).get_win_rate team n) ∧
    (∀ team n, (loadStats (saveStats (applyStats ms))).get_recent_form team n
      = (applyStats ms).get_recent_form team n) ∧
    (∀ team, (loadStats (saveStats (applyStats ms))).get_win_streak team
      = (applyStats ms).get_win_streak team) ∧
    (∀ x y, (loadStats (saveStats (applyStats ms))).get_h2h_win_rate x y
      = (applyStats ms).get_h2h_win_rate x y) ∧
    (∀ team tr, (loadStats (saveStats (applyStats ms))).get_tier_win_rate team tr
      = (applyStats ms).get_tier_win_rate team tr) ∧
    (∀ team dd,
      (loadStats (saveStats (applyStats ms))).get_days_since_last_match team dd
        = (applyStats ms).get_days_since_last_match team dd) ∧
    (∀ team, (loadStats (saveStats (applyStats ms))).get_total_matches team
      = (applyStats ms).get_total_matches team) := by
  have hs : loadStats (saveStats (applyStats ms)) = applyStats ms :=
    loadStats_saveStats _ (wfStats_applyStats ms) (goodH2h_applyStats ms h)
  have he : loadElo (saveElo (applyElo F ms)) = applyElo F ms :=
    loadElo_saveElo _ (wfElo_applyElo F ms)
  exact ⟨hs, he, fun team => by rw [he], fun team => by rw [he],
    fun team n => by rw [hs], fun team n => by rw [hs], fun team => by rw [hs],
    fun x y => by rw [hs], fun team tr => by rw [hs], fun team dd => by rw [hs],
    fun team => by rw [hs]⟩

/-- Witness for C4 on the synthetic 3-match sequence (separator-free
names): the reloaded tracker is the saved one. -/
theorem save_load_roundtrip_witness :
    (∀ m ∈ msSyn3, noBar m.team1 ∧ noBar m.team2) ∧
    loadStats (saveStats (applyStats msSyn3)) = applyStats msSyn3 :=
  ⟨by decide, (save_load_roundtrip F0 msSyn3 (by decide)).1⟩

end CS2
